import Mathlib

/-!
Verification of the gh_status pipeline (shallow embedding).

The Python sources under gh_status/ are embedded as executable Lean
definitions:

* gh_status/github_client.py : pagination, repository listing
* gh_status/builder.py       : inventory building, TODO normalization,
                               activity window / summary / insights
* gh_status/writers.py       : the HTML wrapper error policy

Machine-level concerns are modelled as follows: UTC timestamps are `Int`
seconds, paired with Python's offset-aware/naive distinction where a
datetime comparison depends on it; local calendar days are `Int` day
ordinals obtained through an abstract `localDay : Int → Int` conversion
(standing for the pytz timezone conversion plus date formatting); HTTP
and filesystem effects are passed in as explicit function arguments;
and Python exceptions are `Except` values.
-/

namespace GhStatus

/-! ### github_client.py -/

/-- Embeds `GitHubClient._get_paginated`.  The input is the chain of page
responses the server would produce by following `next` links: `Except.ok`
holds the decoded JSON items of one page, `Except.error` stands for an
`httpx.HTTPStatusError` raised by `raise_for_status` on that page.  The
end of the list means the last response carried no `next` link.  The
Python code accumulates `items` and, on `HTTPStatusError`, logs and
returns the accumulated list, so paging stops at the first error page. -/
def get_paginated {α : Type} : List (Except Unit (List α)) → List α
  | [] => []
  | Except.error _ :: _ => []
  | Except.ok page :: rest => page ++ get_paginated rest

/-- One raw repository JSON object, restricted to the keys
`get_public_repos` reads. -/
structure RawRepo where
  full_name : String
  archived : Bool
  description : Option String
  topics : List String
  language : Option String
  stargazers_count : Nat
  forks_count : Nat
  open_issues_count : Nat
  pushed_at : Int
  homepage : Option String
  default_branch : String
deriving DecidableEq, Repr

/-- Embeds `schemas.RepoInventoryItem` (including the detailed fields that
are only populated for hot repos, defaulting to `None`). -/
structure RepoInventoryItem where
  full : String
  desc : Option String
  topics : List String
  lang : Option String
  stars : Nat
  forks : Nat
  open_issues : Nat
  pushed_utc : Int
  homepage : Option String
  default_branch : String
  readme : Option String := none
  changelog : Option String := none
  recent_files : Option (List String) := none
deriving DecidableEq, Repr

/-- The `RepoInventoryItem(...)` construction inside the loop of
`get_public_repos`. -/
def toInventoryItem (r : RawRepo) : RepoInventoryItem :=
  { full := r.full_name
    desc := r.description
    topics := r.topics
    lang := r.language
    stars := r.stargazers_count
    forks := r.forks_count
    open_issues := r.open_issues_count
    pushed_utc := r.pushed_at
    homepage := r.homepage
    default_branch := r.default_branch }

/-- The sort key relation of `sorted(repos, key=lambda r: r.pushed_utc,
reverse=True)`: `a` comes before `b` when its push time is at least as
recent. -/
def pushedDesc (a b : RepoInventoryItem) : Prop :=
  b.pushed_utc ≤ a.pushed_utc

instance : DecidableRel pushedDesc := fun a b => Int.decLe b.pushed_utc a.pushed_utc

instance : IsTotal RepoInventoryItem pushedDesc :=
  ⟨fun a b => le_total b.pushed_utc a.pushed_utc⟩

instance : IsTrans RepoInventoryItem pushedDesc :=
  ⟨fun _ _ _ h1 h2 => le_trans h2 h1⟩

/-- Embeds `GitHubClient.get_public_repos`: page through the repo
endpoint, skip items whose `archived` flag is truthy, build inventory
items, and sort by push time descending. -/
def get_public_repos (pages : List (Except Unit (List RawRepo))) :
    List RepoInventoryItem :=
  (((get_paginated pages).filter (fun i => !i.archived)).map
      toInventoryItem).insertionSort pushedDesc

/-! ### builder.py : inventory -/

def HOT_REPO_COUNT : Nat := 3

/-- Embeds `schemas.Inventory` (the generation timestamp is irrelevant to
the claims and kept as a plain field). -/
structure Inventory where
  username : String
  generated_utc : Int
  repo : List RepoInventoryItem
deriving DecidableEq, Repr

/-- The enrichment applied to a hot repo inside `build_inventory`:
`repo.readme`, `repo.changelog` and `repo.recent_files` are assigned
from the client. -/
def enrichRepo (gfc : String → String → Option String)
    (grfc : String → Option (List String)) (repo : RepoInventoryItem) :
    RepoInventoryItem :=
  { repo with
    readme := gfc repo.full ("README.md")
    changelog := gfc repo.full ("CHANGELOG.md")
    recent_files := grfc repo.full }

/-- Embeds `builder.build_inventory`.  The client calls are passed in as
functions: `gfc repo path` is `client.get_file_content(repo, path)` and
`grfc repo` is `client.get_recent_file_changes(repo)`.  The Python code
collects `hot_repo_names = set of full names of repos[:HOT_REPO_COUNT]`
and then mutates, in place, every repo whose full name is in that set. -/
def build_inventory (username : String) (generated_utc : Int)
    (repos : List RepoInventoryItem)
    (gfc : String → String → Option String)
    (grfc : String → Option (List String)) : Inventory :=
  let hot_repo_names := (repos.take HOT_REPO_COUNT).map (·.full)
  { username := username
    generated_utc := generated_utc
    repo := repos.map fun repo =>
      if repo.full ∈ hot_repo_names then enrichRepo gfc grfc repo
      else repo }

/-! ### writers.py -/

/-- A Python exception as observed by the handlers of
`writers.write_html_wrapper`: either a `FileNotFoundError` or any other
exception carrying a message. -/
inductive PyExc where
  | fileNotFound
  | other (msg : String)
deriving DecidableEq, Repr

/-- The body of the `try` block in `writers.write_html_wrapper`:
look up the Jinja template (`template`, which can itself fail), read the
source TOML file (`source_content = none` means the file is missing, so
`read_text` raises `FileNotFoundError`), then render and write the HTML
(`render`, covering both the `template.render` call and the final
`write_text`, either of which can raise a non-`FileNotFoundError`
exception). -/
def wrapper_body (template : Except PyExc String)
    (source_content : Option String)
    (render : String → String → Except PyExc String) : Except PyExc String := do
  let t ← template
  match source_content with
  | none => Except.error PyExc.fileNotFound
  | some content => render t content

/-- Embeds `writers.write_html_wrapper` with its two `except` clauses:
`except FileNotFoundError` logs and falls through (no `raise`), so the
function returns normally with no HTML written (`Except.ok none`);
`except Exception` logs and re-raises.  A successful run returns the
written HTML. -/
def write_html_wrapper (template : Except PyExc String)
    (source_content : Option String)
    (render : String → String → Except PyExc String) :
    Except PyExc (Option String) :=
  match wrapper_body template source_content render with
  | Except.ok html => Except.ok (some html)
  | Except.error PyExc.fileNotFound => Except.ok none
  | Except.error (PyExc.other m) => Except.error (PyExc.other m)

/-! ### Theorems for C4 and C5 -/

/-- C4: if an HTTP-level error occurs on any page request of a paginated
fetch (including the first, `pre = []`), `_get_paginated` stops paging
and returns the items accumulated from the pages already retrieved; a
fetch whose pages all succeed returns all items.  The return type is a
plain list, not an `Except`, reflecting that the error is absorbed
rather than raised. -/
theorem get_paginated_stops_at_first_error {α : Type} (pre : List (List α))
    (rest : List (Except Unit (List α))) :
    get_paginated (pre.map Except.ok ++ Except.error () :: rest) = pre.flatten ∧
    get_paginated (pre.map Except.ok) = pre.flatten := by
  induction pre with
  | nil => simp [get_paginated]
  | cons p ps ih =>
    simp only [List.map_cons, List.cons_append, get_paginated, List.flatten_cons,
      List.append_eq]
    exact ⟨by rw [ih.1], by rw [ih.2]⟩

/-- C5: every repository returned by `get_public_repos` comes from a raw
item whose `archived` flag is false, and the returned list is ordered
non-increasingly by push timestamp. -/
theorem get_public_repos_unarchived_sorted (pages : List (Except Unit (List RawRepo))) :
    (∀ item ∈ get_public_repos pages,
        ∃ raw, raw ∈ get_paginated pages ∧ raw.archived = false ∧
          item = toInventoryItem raw) ∧
    (get_public_repos pages).Chain' (fun a b => b.pushed_utc ≤ a.pushed_utc) := by
  constructor
  · intro item hitem
    have hmem := (List.perm_insertionSort pushedDesc _).mem_iff.mp hitem
    rcases List.mem_map.mp hmem with ⟨raw, hraw, rfl⟩
    rcases List.mem_filter.mp hraw with ⟨hraw2, harch⟩
    exact ⟨raw, hraw2, by simpa using harch, rfl⟩
  · have hs := List.sorted_insertionSort pushedDesc
      (((get_paginated pages).filter (fun i => !i.archived)).map toInventoryItem)
    exact List.Pairwise.chain' hs

/-! ### Theorems for C3 -/

/-- A repository record as `get_public_repos` constructs it: the detailed
fields are absent. -/
def mkPlainRepo (full : String) (pushed : Int) : RepoInventoryItem :=
  { full := full, desc := none, topics := [], lang := none, stars := 0,
    forks := 0, open_issues := 0, pushed_utc := pushed, homepage := none,
    default_branch := ("main") }

/-- A repository list (push-time descending) in which the fourth entry
repeats the full name of the first. -/
def dupNameRepos : List RepoInventoryItem :=
  [mkPlainRepo ("u/a") 10, mkPlainRepo ("u/b") 9, mkPlainRepo ("u/c") 8,
   mkPlainRepo ("u/a") 7]

def constGfc : String → String → Option String := fun _ _ => some ("text")

def constGrfc : String → Option (List String) := fun _ => some [("f.py")]

/-- C3 counterexample: `build_inventory` tracks hot repos by a *set of
full names*, so when a repository beyond the first `HOT_REPO_COUNT`
shares its full name with a hot one, it is enriched as well.  Here
`min HOT_REPO_COUNT 4 = 3`, every input repo is unenriched, yet the
fourth output repo (index 3, past the hot range) carries a non-null
README — contradicting "exactly the first min(HOT_REPO_COUNT, total)
entries are hot and all other repositories remain unenriched". -/
theorem build_inventory_duplicate_name_enriched :
    min HOT_REPO_COUNT dupNameRepos.length = 3 ∧
    (∀ r ∈ dupNameRepos, r.readme = none) ∧
    ((build_inventory ("u") 0 dupNameRepos constGfc constGrfc).repo.drop 3).map
        (·.readme) = [some ("text")] := by
  refine ⟨by decide, by decide, ?_⟩
  rfl

/-- C3 amended: provided the repository full names are pairwise distinct
(as they are for any real GitHub listing), `build_inventory` enriches
exactly the first `min(HOT_REPO_COUNT, total)` repositories — the result
is the enriched `HOT_REPO_COUNT`-prefix followed by the untouched rest —
and the hot prefix has length `min HOT_REPO_COUNT repos.length`.  In
particular all non-hot repositories keep their (null) README, changelog
and file-list fields. -/
theorem build_inventory_hot_exact (username : String) (gen : Int)
    (repos : List RepoInventoryItem)
    (gfc : String → String → Option String)
    (grfc : String → Option (List String))
    (hnodup : (repos.map (·.full)).Nodup) :
    (build_inventory username gen repos gfc grfc).repo =
      (repos.take HOT_REPO_COUNT).map (enrichRepo gfc grfc) ++
        repos.drop HOT_REPO_COUNT ∧
    (repos.take HOT_REPO_COUNT).length = min HOT_REPO_COUNT repos.length := by
  have hdisj : ∀ r ∈ repos.drop HOT_REPO_COUNT,
      r.full ∉ (repos.take HOT_REPO_COUNT).map (·.full) := by
    intro r hr hmem
    rw [← List.take_append_drop HOT_REPO_COUNT repos, List.map_append] at hnodup
    exact (List.nodup_append.mp hnodup).2.2 hmem (List.mem_map_of_mem _ hr)
  constructor
  · have hrepo : (build_inventory username gen repos gfc grfc).repo
        = repos.map (fun repo =>
            if repo.full ∈ (repos.take HOT_REPO_COUNT).map (·.full) then
              enrichRepo gfc grfc repo
            else repo) := rfl
    rw [hrepo]
    have hsplit : repos.map (fun repo =>
        if repo.full ∈ (repos.take HOT_REPO_COUNT).map (·.full) then
          enrichRepo gfc grfc repo
        else repo)
        = (repos.take HOT_REPO_COUNT).map (fun repo =>
            if repo.full ∈ (repos.take HOT_REPO_COUNT).map (·.full) then
              enrichRepo gfc grfc repo
            else repo)
          ++ (repos.drop HOT_REPO_COUNT).map (fun repo =>
            if repo.full ∈ (repos.take HOT_REPO_COUNT).map (·.full) then
              enrichRepo gfc grfc repo
            else repo) := by
      rw [← List.map_append, List.take_append_drop]
    rw [hsplit]
    congr 1
    · exact List.map_congr_left fun r hr =>
        if_pos (List.mem_map_of_mem _ hr)
    · calc (repos.drop HOT_REPO_COUNT).map _
          = (repos.drop HOT_REPO_COUNT).map id :=
            List.map_congr_left fun r hr => if_neg (hdisj r hr)
        _ = repos.drop HOT_REPO_COUNT := List.map_id _
  · exact List.length_take _ _

/-- Witness for `build_inventory_hot_exact` at a concrete
distinct-name repository list. -/
theorem build_inventory_hot_exact_witness :
    (build_inventory ("u") 0 [mkPlainRepo ("u/a") 10, mkPlainRepo ("u/b") 9]
        constGfc constGrfc).repo =
      ([mkPlainRepo ("u/a") 10, mkPlainRepo ("u/b") 9].take
          HOT_REPO_COUNT).map (enrichRepo constGfc constGrfc) ++
        [mkPlainRepo ("u/a") 10, mkPlainRepo ("u/b") 9].drop HOT_REPO_COUNT :=
  (build_inventory_hot_exact ("u") 0
    [mkPlainRepo ("u/a") 10, mkPlainRepo ("u/b") 9] constGfc constGrfc
    (by decide)).1

/-! ### Theorems for C2 -/

def okTemplate : Except PyExc String := Except.ok ("wrapper")

def okRender : String → String → Except PyExc String :=
  fun t c => Except.ok (t ++ c)

/-- C2 counterexample: with the Jinja template available and the source
TOML file missing, `write_html_wrapper` returns normally — the
`FileNotFoundError` is caught, logged and *not* re-raised — refuting
"the missing-source failure is re-raised to the caller and halts the
run". -/
theorem write_html_wrapper_missing_source_swallowed :
    write_html_wrapper okTemplate none okRender = Except.ok none ∧
    ∀ e, write_html_wrapper okTemplate none okRender ≠ Except.error e := by
  refine ⟨rfl, fun e h => ?_⟩
  have h2 : (Except.ok none : Except PyExc (Option String)) = Except.error e := h
  exact Except.noConfusion h2

/-- C2 amended: when the source TOML file is missing the failure is
logged and swallowed (the function returns normally and no HTML is
produced), while any other failure of the try block — template lookup,
rendering or writing — is logged and re-raised to the caller; a
successful body yields the written HTML. -/
theorem write_html_wrapper_error_policy (template : Except PyExc String)
    (source_content : Option String)
    (render : String → String → Except PyExc String) :
    (∀ t, template = Except.ok t → source_content = none →
      write_html_wrapper template source_content render = Except.ok none) ∧
    (∀ m, wrapper_body template source_content render =
        Except.error (PyExc.other m) →
      write_html_wrapper template source_content render =
        Except.error (PyExc.other m)) ∧
    (∀ html, wrapper_body template source_content render = Except.ok html →
      write_html_wrapper template source_content render =
        Except.ok (some html)) := by
  refine ⟨fun t ht hs => ?_, fun m hm => ?_, fun html hh => ?_⟩
  · subst ht hs
    rfl
  · simp [write_html_wrapper, hm]
  · simp [write_html_wrapper, hh]

/-- Witness for `write_html_wrapper_error_policy`: missing source with a
good template is swallowed. -/
theorem write_html_wrapper_error_policy_witness :
    write_html_wrapper okTemplate none okRender = Except.ok none :=
  (write_html_wrapper_error_policy okTemplate none okRender).1 ("wrapper")
    rfl rfl

/-! ### builder.py : TODO normalization -/

/-- Python whitespace for the purposes of the regex class `\s` and
`str.strip()` (restricted to the ASCII whitespace characters, the only
ones the claims exercise). -/
def isPySpace (c : Char) : Bool :=
  c = ' ' || c = '\t' || c = '\n' || c = '\x0b' || c = '\x0c' || c = '\r'

/-- The optional checkbox group `(\[[ xX]\])?` of the marker regex in
`_normalize_todo_line`: consume a leading `[ ]`, `[x]` or `[X]` if
present, otherwise leave the input unchanged. -/
def dropCheckbox (l : List Char) : List Char :=
  match l with
  | '[' :: c :: ']' :: rest =>
    if c = ' ' || c = 'x' || c = 'X' then rest else '[' :: c :: ']' :: rest
  | _ => l

/-- The substitution `re.sub(r"^\s*[-*]\s*(\[[ xX]\])?\s*", "", line)` of
`builder._normalize_todo_line`.  The pattern anchors at the start,
requires a `-` or `*` after optional whitespace (no match leaves the
line unchanged), then consumes optional whitespace, an optional
checkbox, and optional whitespace.  No character class overlaps `\s`, so
greedy matching needs no backtracking and this direct parse is exact. -/
def subMarker (l : List Char) : List Char :=
  match l.dropWhile isPySpace with
  | c :: rest =>
    if c = '-' || c = '*' then
      (dropCheckbox (rest.dropWhile isPySpace)).dropWhile isPySpace
    else l
  | [] => l

/-- Python `str.strip()`: remove leading and trailing whitespace. -/
def pyStrip (l : List Char) : List Char :=
  ((l.dropWhile isPySpace).reverse.dropWhile isPySpace).reverse

/-- Embeds `builder._normalize_todo_line`: apply the marker substitution,
then `strip()`. -/
def normalize_todo_line (line : String) : String :=
  String.mk (pyStrip (subMarker line.toList))

/-- Python `str.split` with a single one-character separator: split at
every occurrence, keeping empty pieces; the empty string yields one
empty piece. -/
def pySplit (sep : Char) : List Char → List (List Char)
  | [] => [[]]
  | c :: rest =>
    if c = sep then [] :: pySplit sep rest
    else
      match pySplit sep rest with
      | [] => [[c]]
      | piece :: pieces => (c :: piece) :: pieces

/-- Python `str.splitlines()` for newline-delimited content: split on
the line feed character and drop the empty piece a trailing newline
would otherwise produce.  (Python also recognizes other terminators
such as a carriage return; the TODO claims only exercise line feeds,
and a stray carriage return would in any case be removed by the
subsequent `strip()`.) -/
def pySplitlines (content : String) : List String :=
  let pieces := (pySplit '\n' content.toList).map fun cs => String.mk cs
  if pieces.getLast? = some ("") then pieces.dropLast else pieces

/-- Embeds `builder._parse_todos_from_content`: normalize every line and
keep the truthy (non-empty) results, in order. -/
def parse_todos_from_content (content : String) : List String :=
  ((pySplitlines content).map normalize_todo_line).filter (fun t => t ≠ (""))

/-! ### builder.py : activity -/

/-- One raw GitHub event JSON object, restricted to the keys
`build_activity` reads outside the payload-specific title formatting:
`e["id"]`, `e["type"]`, `e["repo"]["name"]` and `e["created_at"]`.
The timestamp string is kept as its parse result:
`datetime.fromisoformat(e["created_at"].replace("Z", "+00:00"))` —
`created_at` is the UTC instant in seconds and `created_at_aware`
records whether the parsed datetime is offset-aware, i.e. whether the
string carried a UTC offset.  GitHub timestamps are Z-suffixed, so for
every real event the parse is aware (the default); `false` models a
hypothetical offset-less string.  The payload-derived title, URL and
commit abbreviations are plain string formatting not touched by any
claim and are left out of the model. -/
structure RawEvent where
  id : String
  type : String
  repo_name : String
  created_at : Int
  created_at_aware : Bool := true
deriving DecidableEq, Repr

def SECONDS_PER_DAY : Int := 86400

/-- `window_start_utc = now_utc - timedelta(days=window_days)`.  It is
derived from `datetime.utcnow()`, which is offset-naive. -/
def window_start_utc (now_utc window_days : Int) : Int :=
  now_utc - window_days * SECONDS_PER_DAY

/-- A Python datetime as it participates in the window comparison: the
UTC value in seconds plus whether it is offset-aware. -/
structure PyDatetime where
  aware : Bool
  seconds : Int
deriving DecidableEq, Repr

/-- Python `a >= b` on datetimes: ordering an offset-naive against an
offset-aware datetime raises
`TypeError: can't compare offset-naive and offset-aware datetimes`;
otherwise the instants (or naive wall-clock values, both rendered in
seconds here) are compared. -/
def pyDatetimeGe (a b : PyDatetime) : Except String Bool :=
  if a.aware = b.aware then Except.ok (decide (b.seconds ≤ a.seconds))
  else Except.error ("TypeError")

/-- The per-event parse
`datetime.fromisoformat(e["created_at"].replace("Z", "+00:00"))`. -/
def parsed_created_at (e : RawEvent) : PyDatetime :=
  { aware := e.created_at_aware, seconds := e.created_at }

/-- Embeds the window filter of `build_activity`:
`[e for e in all_events if fromisoformat(e["created_at"].replace("Z", "+00:00")) >= window_start_utc]`.
The comprehension evaluates the `>=` per event in order, and an
exception raised by a comparison propagates out of the whole
comprehension; `window_start_utc` is offset-naive (from
`datetime.utcnow()`), while a Z-suffixed timestamp parses offset-aware,
so that comparison raises `TypeError`.  When a comparison does succeed
only the lower bound is tested. -/
def window_events (now_utc window_days : Int) :
    List RawEvent → Except String (List RawEvent)
  | [] => Except.ok []
  | e :: rest => do
    let keep ← pyDatetimeGe (parsed_created_at e)
      { aware := false, seconds := window_start_utc now_utc window_days }
    let tail ← window_events now_utc window_days rest
    pure (if keep then e :: tail else tail)

/-- The keys of a `collections.Counter` built by iterating `l`, in
Python dict insertion order: first occurrence order. -/
def counterKeys {α : Type} [DecidableEq α] (l : List α) : List α :=
  l.foldl (fun ks k => if k ∈ ks then ks else ks ++ [k]) []

/-- `Counter(l).most_common(1)[0][0]` when `l` is non-empty, `none`
otherwise: the key with the greatest count, ties broken in favour of
the earliest-inserted key (Python's `nlargest` over dict order is
stable). -/
def most_common1 {α : Type} [DecidableEq α] (l : List α) : Option α :=
  match counterKeys l with
  | [] => none
  | k :: ks => some (ks.foldl (fun best k2 =>
      if l.count best < l.count k2 then k2 else best) k)

/-- The local calendar days of the window events:
`event_time_utc.astimezone(local_tz).strftime(...)` per event, with the
timezone conversion abstracted into `localDay`. -/
def events_by_local_day (localDay : Int → Int) (we : List RawEvent) :
    List Int :=
  we.map fun e => localDay e.created_at

/-- `active_days = sorted(events_by_local_day.keys())`. -/
def active_days (days : List Int) : List Int :=
  (counterKeys days).insertionSort (· ≤ ·)

/-- The backward walk of the streak loop of `build_activity`: given the
current day and the remaining active days in descending order, count
while each previous day is exactly one day earlier. -/
def streakGo : Int → List Int → Nat
  | _, [] => 0
  | current_day, prev_day :: rest =>
    if current_day - prev_day = 1 then 1 + streakGo prev_day rest else 0

/-- The streak computation of `build_activity`: `0` for no active days,
else `1` plus the backward walk from the last (most recent) active day
over the earlier ones in reverse order. -/
def streak (active : List Int) : Nat :=
  match active.reverse with
  | [] => 0
  | last :: rest => 1 + streakGo last rest

/-- Embeds `schemas.ActivityInsights`, restricted to the two derived
metrics the claims are about (`top_repos` / `top_event_types` are plain
top-5 formatting not touched by any claim). -/
structure ActivityInsights where
  streak_days : Nat
  busiest_local_day : Option Int
deriving DecidableEq, Repr

/-- The insights assembly of `build_activity`. -/
def mkActivityInsights (localDay : Int → Int) (we : List RawEvent) :
    ActivityInsights :=
  { streak_days := streak (active_days (events_by_local_day localDay we))
    busiest_local_day := most_common1 (events_by_local_day localDay we) }

/-- Embeds `schemas.ActivitySummary`. -/
structure ActivitySummary where
  events : Nat
  repos : Nat
  pushes : Nat
  pull_requests : Nat
  issues : Nat
  comments : Nat
  releases : Nat
  stars : Nat
  creates : Nat
  deletes : Nat
deriving DecidableEq, Repr

/-- The summary assembly of `build_activity`: `type_counter.get(t, 0)`
is the number of window events of type `t`. -/
def mkActivitySummary (we : List RawEvent) : ActivitySummary :=
  { events := we.length
    repos := (counterKeys (we.map fun e => e.repo_name)).length
    pushes := (we.map fun e => e.type).count ("PushEvent")
    pull_requests := (we.map fun e => e.type).count ("PullRequestEvent")
    issues := (we.map fun e => e.type).count ("IssuesEvent")
    comments := (we.map fun e => e.type).count ("IssueCommentEvent")
      + (we.map fun e => e.type).count ("CommitCommentEvent")
    releases := (we.map fun e => e.type).count ("ReleaseEvent")
    stars := (we.map fun e => e.type).count ("WatchEvent")
    creates := (we.map fun e => e.type).count ("CreateEvent")
    deletes := (we.map fun e => e.type).count ("DeleteEvent") }

/-- Embeds `schemas.ActivityEvent`, restricted to the fields the claims
are about. -/
structure ActivityEventItem where
  type : String
  repo_owner : String
  repo_name : String
  at_utc : Int
  event_id : String
deriving DecidableEq, Repr

/-- The unpacking `repo_owner, repo_name_short = repo_name_full.split('/')`:
succeeds with the two pieces when the split yields exactly two, raises a
`ValueError` (modelled as `Except.error` carrying the offending name)
otherwise. -/
def split_owner_name (full : String) : Except String (String × String) :=
  match (pySplit '/' full.toList).map (fun cs => String.mk cs) with
  | [owner, name] => Except.ok (owner, name)
  | _ => Except.error full

/-- The per-event display-record loop of `build_activity`: each window
event is turned into an `ActivityEventItem`, and a `ValueError` from the
owner/name unpacking aborts the whole build. -/
def build_events_list : List RawEvent → Except String (List ActivityEventItem)
  | [] => Except.ok []
  | e :: rest => do
    let (o, n) ← split_owner_name e.repo_name
    let items ← build_events_list rest
    pure ({ type := e.type, repo_owner := o, repo_name := n,
            at_utc := e.created_at, event_id := e.id } :: items)

/-! ### Specification-side definition for the streak claim -/

/-- Written from the specification text, for comparison with `streak`:
the length of the run of strictly consecutive calendar dates ending at
the most recent active date — the number of initial `i = 0, 1, 2, …`
for which `most recent date minus i days` is still an active date,
stopping at the first gap. -/
def spec_trailing_streak (active : List Int) : Nat :=
  match active.getLast? with
  | none => 0
  | some m =>
    ((List.range active.length).takeWhile
      (fun i : Nat => decide ((m - (i : Int)) ∈ active))).length

/-! ### Theorems for C6 -/

/-- A sample Z-suffixed (offset-aware) GitHub event. -/
def futureEvent : RawEvent :=
  { id := ("1"), type := ("PushEvent"), repo_name := ("u/r"),
    created_at := 100 }

/-- C6: the window filter never gets to apply the claimed interval test.
`window_start_utc` descends from the offset-naive `datetime.utcnow()`
while every GitHub-format (Z-suffixed) timestamp parses offset-aware,
and Python raises `TypeError` on ordering a naive against an aware
datetime — so for every fetched event list containing such an event,
`build_activity` crashes at the filter comprehension instead of
including or excluding anything. -/
theorem window_events_type_error (now_utc window_days : Int)
    (events : List RawEvent) (e : RawEvent) (he : e ∈ events)
    (haware : e.created_at_aware = true) :
    window_events now_utc window_days events = Except.error ("TypeError") := by
  induction events with
  | nil => exact absurd he (List.not_mem_nil e)
  | cons x rest ih =>
    rcases List.mem_cons.mp he with rfl | hrest
    · simp [window_events, pyDatetimeGe, parsed_created_at, haware,
        Bind.bind, Except.bind]
    · cases hx : x.created_at_aware with
      | false =>
        simp [window_events, pyDatetimeGe, parsed_created_at, hx, ih hrest,
          Bind.bind, Except.bind]
      | true =>
        simp [window_events, pyDatetimeGe, parsed_created_at, hx,
          Bind.bind, Except.bind]

/-- Witness for `window_events_type_error`: one Z-suffixed event crashes
the window filter. -/
theorem window_events_type_error_witness :
    window_events 0 7 [futureEvent] = Except.error ("TypeError") :=
  window_events_type_error 0 7 [futureEvent] futureEvent (by decide)
    (by decide)

/-- Had both sides of the comparison agreed in awareness — only possible
for hypothetical offset-less timestamp strings — the comprehension would
keep exactly the events with `created_at >= window_start_utc`: a lower
bound only, with no test against `now`. -/
theorem window_events_all_naive (now_utc window_days : Int)
    (events : List RawEvent)
    (h : ∀ e ∈ events, e.created_at_aware = false) :
    window_events now_utc window_days events = Except.ok
      (events.filter fun e =>
        window_start_utc now_utc window_days ≤ e.created_at) := by
  induction events with
  | nil => rfl
  | cons x rest ih =>
    have hx := h x (List.mem_cons_self x rest)
    have hrest := ih fun e he => h e (List.mem_cons_of_mem x he)
    by_cases hcmp : window_start_utc now_utc window_days ≤ x.created_at <;>
      simp [window_events, pyDatetimeGe, parsed_created_at, hx, hrest,
        List.filter_cons, hcmp, Bind.bind, Except.bind, Pure.pure,
        Except.pure]

/-! ### Theorems for C7 -/

/-- The event-type literals that `build_activity` maps to named summary
fields. -/
def recognizedEventTypes : List String :=
  [("PushEvent"), ("PullRequestEvent"), ("IssuesEvent"),
   ("IssueCommentEvent"), ("CommitCommentEvent"), ("ReleaseEvent"),
   ("WatchEvent"), ("CreateEvent"), ("DeleteEvent")]

/-- A window with 3 push events, 1 issue comment and 1 commit comment. -/
def c7Events : List RawEvent :=
  [{ id := ("1"), type := ("PushEvent"), repo_name := ("u/r"), created_at := 1 },
   { id := ("2"), type := ("PushEvent"), repo_name := ("u/r"), created_at := 2 },
   { id := ("3"), type := ("PushEvent"), repo_name := ("u/r"), created_at := 3 },
   { id := ("4"), type := ("IssueCommentEvent"), repo_name := ("u/r"),
     created_at := 4 },
   { id := ("5"), type := ("CommitCommentEvent"), repo_name := ("u/r"),
     created_at := 5 }]

/-- C7: the summary maps event-type literals to named fields — `pushes`
counts `PushEvent`, `comments` combines `IssueCommentEvent` and
`CommitCommentEvent` — an event of a type outside the recognized
literals changes none of the named type fields and only the generic
`events` total, and on the concrete window of 3 pushes, 1 issue comment
and 1 commit comment, `pushes = 3` and `comments = 2`. -/
theorem summary_counts (we : List RawEvent) (e : RawEvent)
    (hu : e.type ∉ recognizedEventTypes) :
    ((mkActivitySummary we).pushes
        = (we.map fun x => x.type).count ("PushEvent") ∧
      (mkActivitySummary we).comments
        = (we.map fun x => x.type).count ("IssueCommentEvent")
          + (we.map fun x => x.type).count ("CommitCommentEvent") ∧
      (mkActivitySummary we).events = we.length) ∧
    ((mkActivitySummary (e :: we)).pushes = (mkActivitySummary we).pushes ∧
      (mkActivitySummary (e :: we)).pull_requests
        = (mkActivitySummary we).pull_requests ∧
      (mkActivitySummary (e :: we)).issues = (mkActivitySummary we).issues ∧
      (mkActivitySummary (e :: we)).comments
        = (mkActivitySummary we).comments ∧
      (mkActivitySummary (e :: we)).releases
        = (mkActivitySummary we).releases ∧
      (mkActivitySummary (e :: we)).stars = (mkActivitySummary we).stars ∧
      (mkActivitySummary (e :: we)).creates
        = (mkActivitySummary we).creates ∧
      (mkActivitySummary (e :: we)).deletes
        = (mkActivitySummary we).deletes ∧
      (mkActivitySummary (e :: we)).events
        = (mkActivitySummary we).events + 1) ∧
    ((mkActivitySummary c7Events).pushes = 3 ∧
      (mkActivitySummary c7Events).comments = 2) := by
  refine ⟨⟨rfl, rfl, rfl⟩, ?_, by decide⟩
  simp only [recognizedEventTypes, List.mem_cons, List.not_mem_nil,
    or_false, not_or] at hu
  obtain ⟨h1, h2, h3, h4, h5, h6, h7, h8, h9⟩ := hu
  simp [mkActivitySummary, List.count_cons, h1, h2, h3, h4, h5, h6, h7, h8, h9]

/-- Witness for `summary_counts` at the concrete window and an
unrecognized `ForkEvent`. -/
theorem summary_counts_witness :
    (mkActivitySummary c7Events).pushes = 3 ∧
    (mkActivitySummary c7Events).comments = 2 :=
  (summary_counts c7Events
    { id := ("9"), type := ("ForkEvent"), repo_name := ("u/r"),
      created_at := 9 } (by decide)).2.2

/-! ### Theorems for C10 -/

theorem pySplit_ne_nil (sep : Char) (l : List Char) : pySplit sep l ≠ [] := by
  induction l with
  | nil =>
    intro h
    exact List.noConfusion h
  | cons c rest ih =>
    by_cases hc : c = sep
    · simp [pySplit, hc]
    · cases h : pySplit sep rest with
      | nil => exact absurd h ih
      | cons p ps => simp [pySplit, hc, h]

/-- Splitting at a one-character separator yields one more piece than
there are separator occurrences. -/
theorem length_pySplit (sep : Char) (l : List Char) :
    (pySplit sep l).length = l.count sep + 1 := by
  induction l with
  | nil => rfl
  | cons c rest ih =>
    by_cases hc : c = sep
    · subst hc
      simp [pySplit, List.count_cons, ih]
    · cases h : pySplit sep rest with
      | nil => exact absurd h (pySplit_ne_nil sep rest)
      | cons p ps =>
        have hne : (c == sep) = false := by simpa using hc
        rw [h] at ih
        simp only [List.length_cons] at ih
        simp [pySplit, hc, h, List.count_cons, hne]
        omega

/-- The owner/name unpacking succeeds exactly when the full name
contains exactly one slash. -/
theorem split_owner_name_isOk (full : String) :
    (split_owner_name full).isOk = true ↔ full.toList.count '/' = 1 := by
  have hlen : ((pySplit '/' full.toList).map (fun cs => String.mk cs)).length
      = full.toList.count '/' + 1 := by
    rw [List.length_map]
    exact length_pySplit '/' full.toList
  unfold split_owner_name
  rcases h : (pySplit '/' full.toList).map (fun cs => String.mk cs) with
    _ | ⟨a, _ | ⟨b, _ | ⟨c, rest⟩⟩⟩ <;> rw [h] at hlen <;>
    simp only [List.length_nil, List.length_cons, String.toList] at hlen <;>
    simp [Except.isOk, Except.toBool, String.toList] <;> omega

/-- Unfolding of the event-record loop on a non-empty window. -/
theorem build_events_list_cons (e : RawEvent) (es : List RawEvent) :
    build_events_list (e :: es) =
      (split_owner_name e.repo_name).bind fun p =>
        (build_events_list es).bind fun items =>
          Except.ok ({ type := e.type, repo_owner := p.1, repo_name := p.2,
                       at_utc := e.created_at, event_id := e.id } :: items) :=
  rfl

/-- C10: building the per-event display records succeeds exactly when
every window event's repository name contains exactly one `/`; any
event whose name has no slash or several slashes makes the
`split('/')` unpacking raise a `ValueError` and the whole activity
build fail, rather than degrading for that one event. -/
theorem build_events_list_ok_iff (we : List RawEvent) :
    ((build_events_list we).isOk = true ↔
      ∀ e ∈ we, e.repo_name.toList.count '/' = 1) ∧
    (∀ e ∈ we, e.repo_name.toList.count '/' ≠ 1 →
      ∃ m, build_events_list we = Except.error m) := by
  have hmain : (build_events_list we).isOk = true ↔
      ∀ e ∈ we, e.repo_name.toList.count '/' = 1 := by
    induction we with
    | nil => simp [build_events_list, Except.isOk, Except.toBool]
    | cons e es ih =>
      rw [build_events_list_cons]
      rcases hsp : split_owner_name e.repo_name with m | p
      · simp only [Except.bind]
        constructor
        · intro h
          exact absurd h (by simp [Except.isOk, Except.toBool])
        · intro hall
          exfalso
          have hok := (split_owner_name_isOk e.repo_name).mpr
            (hall e (List.mem_cons_self e es))
          rw [hsp] at hok
          exact absurd hok (by simp [Except.isOk, Except.toBool])
      · rcases hb : build_events_list es with m2 | items
        · simp only [Except.bind]
          constructor
          · intro h
            exact absurd h (by simp [Except.isOk, Except.toBool])
          · intro hall
            exfalso
            have hrest := ih.mpr fun x hx =>
              hall x (List.mem_cons_of_mem e hx)
            rw [hb] at hrest
            exact absurd hrest (by simp [Except.isOk, Except.toBool])
        · simp only [Except.bind]
          constructor
          · intro _
            intro x hx
            rcases List.mem_cons.mp hx with rfl | hxs
            · have hok : (split_owner_name x.repo_name).isOk = true := by
                rw [hsp]
                rfl
              exact (split_owner_name_isOk _).mp hok
            · refine ih.mp ?_ x hxs
              rw [hb]
              rfl
          · intro _
            rfl
  refine ⟨hmain, fun e he hbad => ?_⟩
  rcases hb : build_events_list we with m | items
  · exact ⟨m, rfl⟩
  · refine absurd (hmain.mp ?_ e he) hbad
    rw [hb]
    rfl

/-- An event whose repository name contains no slash. -/
def badRepoEvent : RawEvent :=
  { id := ("1"), type := ("PushEvent"), repo_name := ("abc"),
    created_at := 0 }

/-- Witness for `build_events_list_ok_iff`: one slash-less repository
name fails the whole build. -/
theorem build_events_list_ok_iff_witness :
    ∃ m, build_events_list [badRepoEvent] = Except.error m :=
  (build_events_list_ok_iff [badRepoEvent]).2 badRepoEvent (by decide)
    (by decide)

/-! ### Theorems for C8 -/

theorem head?_dropWhile_false {α : Type} (p : α → Bool) (l : List α) (c : α)
    (h : (l.dropWhile p).head? = some c) : p c = false := by
  induction l with
  | nil => simp at h
  | cons x xs ih =>
    rw [List.dropWhile_cons] at h
    by_cases hx : p x = true
    · rw [if_pos hx] at h
      exact ih h
    · rw [if_neg hx] at h
      simp only [List.head?_cons, Option.some.injEq] at h
      subst h
      simpa using hx

theorem dropWhile_append_singleton {α : Type} (p : α → Bool) (xs : List α)
    (a : α) (ha : p a = false) :
    (xs ++ [a]).dropWhile p = xs.dropWhile p ++ [a] := by
  induction xs with
  | nil => simp [List.dropWhile_cons, ha]
  | cons x t ih =>
    rw [List.cons_append, List.dropWhile_cons, List.dropWhile_cons]
    by_cases hx : p x = true
    · rw [if_pos hx, if_pos hx]
      exact ih
    · rw [if_neg hx, if_neg hx, List.cons_append]

/-- The first character of a stripped line is not whitespace. -/
theorem pyStrip_head_not_space (l : List Char) (c : Char)
    (h : (pyStrip l).head? = some c) : isPySpace c = false := by
  unfold pyStrip at h
  cases hd : l.dropWhile isPySpace with
  | nil =>
    rw [hd] at h
    simp at h
  | cons a t =>
    have ha : isPySpace a = false :=
      head?_dropWhile_false isPySpace l a (by rw [hd]; rfl)
    rw [hd, show (a :: t).reverse = t.reverse ++ [a] from by simp,
      dropWhile_append_singleton isPySpace t.reverse a ha,
      List.reverse_append] at h
    simp only [List.reverse_cons, List.reverse_nil, List.nil_append,
      List.singleton_append, List.head?_cons, Option.some.injEq] at h
    exact h ▸ ha

/-- The last character of a stripped line is not whitespace. -/
theorem pyStrip_getLast_not_space (l : List Char) (c : Char)
    (h : (pyStrip l).getLast? = some c) : isPySpace c = false := by
  rw [List.getLast?_eq_head?_reverse] at h
  unfold pyStrip at h
  rw [List.reverse_reverse] at h
  exact head?_dropWhile_false isPySpace _ c h

/-- C8: the two worked examples of marker stripping; a line that becomes
empty after stripping (here the bare checkbox line) is dropped from the
parsed TODO list; every parsed TODO line is non-empty; and a normalized
line carries no leading or trailing whitespace. -/
theorem todo_normalization :
    normalize_todo_line ("- [ ] Fix bug") = ("Fix bug") ∧
    normalize_todo_line ("* [x]   Done thing  ") = ("Done thing") ∧
    parse_todos_from_content ("- [ ] Fix bug\n- [ ]\n* [x]   Done thing  ")
      = [("Fix bug"), ("Done thing")] ∧
    (∀ content, ∀ t ∈ parse_todos_from_content content, t ≠ ("")) ∧
    (∀ line c,
      ((normalize_todo_line line).toList.head? = some c →
        isPySpace c = false) ∧
      ((normalize_todo_line line).toList.getLast? = some c →
        isPySpace c = false)) := by
  refine ⟨by decide, by decide, by decide, ?_, ?_⟩
  · intro content t ht
    exact of_decide_eq_true (List.mem_filter.mp ht).2
  · intro line c
    exact ⟨fun h => pyStrip_head_not_space (subMarker line.toList) c h,
      fun h => pyStrip_getLast_not_space (subMarker line.toList) c h⟩

/-- Witness for `todo_normalization` at the first worked example. -/
theorem todo_normalization_witness :
    ("Fix bug" : String) ≠ ("") ∧ isPySpace 'F' = false :=
  ⟨todo_normalization.2.2.2.1 ("- [ ] Fix bug") ("Fix bug") (by decide),
   (todo_normalization.2.2.2.2 ("- [ ] Fix bug") 'F').1 (by decide)⟩

/-! ### Theorems for C9 -/

theorem counterKeys_go_mem {α : Type} [DecidableEq α] (l : List α)
    (acc : List α) (x : α) :
    x ∈ l.foldl (fun ks k => if k ∈ ks then ks else ks ++ [k]) acc ↔
      x ∈ acc ∨ x ∈ l := by
  induction l generalizing acc with
  | nil => simp
  | cons a t ih =>
    simp only [List.foldl_cons]
    by_cases ha : a ∈ acc
    · rw [if_pos ha, ih]
      constructor
      · rintro (h | h)
        · exact Or.inl h
        · exact Or.inr (List.mem_cons_of_mem a h)
      · rintro (h | h)
        · exact Or.inl h
        · rcases List.mem_cons.mp h with rfl | h2
          · exact Or.inl ha
          · exact Or.inr h2
    · rw [if_neg ha, ih]
      constructor
      · rintro (h | h)
        · rcases List.mem_append.mp h with h1 | h1
          · exact Or.inl h1
          · rw [List.mem_singleton] at h1
            subst h1
            exact Or.inr (List.mem_cons_self _ t)
        · exact Or.inr (List.mem_cons_of_mem a h)
      · rintro (h | h)
        · exact Or.inl (List.mem_append.mpr (Or.inl h))
        · rcases List.mem_cons.mp h with rfl | h2
          · exact Or.inl
              (List.mem_append.mpr (Or.inr (List.mem_singleton.mpr rfl)))
          · exact Or.inr h2

theorem counterKeys_mem {α : Type} [DecidableEq α] (l : List α) (x : α) :
    x ∈ counterKeys l ↔ x ∈ l := by
  unfold counterKeys
  rw [counterKeys_go_mem]
  simp

theorem counterKeys_go_nodup {α : Type} [DecidableEq α] (l : List α)
    (acc : List α) (hacc : acc.Nodup) :
    (l.foldl (fun ks k => if k ∈ ks then ks else ks ++ [k]) acc).Nodup := by
  induction l generalizing acc with
  | nil => simpa
  | cons a t ih =>
    simp only [List.foldl_cons]
    by_cases ha : a ∈ acc
    · rw [if_pos ha]
      exact ih acc hacc
    · rw [if_neg ha]
      refine ih _ (List.Nodup.append hacc (List.nodup_singleton a) ?_)
      intro x hx hxa
      rw [List.mem_singleton] at hxa
      subst hxa
      exact ha hx

theorem counterKeys_nodup {α : Type} [DecidableEq α] (l : List α) :
    (counterKeys l).Nodup :=
  counterKeys_go_nodup l [] List.nodup_nil

theorem counterKeys_eq_nil_iff {α : Type} [DecidableEq α] (l : List α) :
    counterKeys l = [] ↔ l = [] := by
  constructor
  · intro h
    cases l with
    | nil => rfl
    | cons a t =>
      have hmem : a ∈ counterKeys (a :: t) :=
        (counterKeys_mem _ _).mpr (List.mem_cons_self a t)
      rw [h] at hmem
      exact absurd hmem (List.not_mem_nil a)
  · rintro rfl
    rfl

theorem foldl_argmax_mem {α : Type} [DecidableEq α] (l : List α)
    (ks : List α) (k : α) :
    ks.foldl (fun best k2 => if l.count best < l.count k2 then k2 else best) k
      ∈ k :: ks := by
  induction ks generalizing k with
  | nil => simp
  | cons a t ih =>
    simp only [List.foldl_cons]
    by_cases h : l.count k < l.count a
    · rw [if_pos h]
      exact List.mem_cons_of_mem k (ih a)
    · rw [if_neg h]
      rcases List.mem_cons.mp (ih k) with h2 | h2
      · rw [h2]
        exact List.mem_cons_self k (a :: t)
      · exact List.mem_cons_of_mem k (List.mem_cons_of_mem a h2)

theorem most_common1_eq_none_iff {α : Type} [DecidableEq α] (l : List α) :
    most_common1 l = none ↔ l = [] := by
  unfold most_common1
  cases hk : counterKeys l with
  | nil =>
    constructor
    · intro _
      exact (counterKeys_eq_nil_iff l).mp hk
    · intro _
      rfl
  | cons k ks =>
    constructor
    · intro h
      exact Option.noConfusion h
    · rintro rfl
      exact List.noConfusion hk

theorem most_common1_mem {α : Type} [DecidableEq α] (l : List α)
    (hne : l ≠ []) : ∃ d, most_common1 l = some d ∧ d ∈ l := by
  unfold most_common1
  cases hk : counterKeys l with
  | nil => exact absurd ((counterKeys_eq_nil_iff l).mp hk) hne
  | cons k ks =>
    refine ⟨_, rfl, ?_⟩
    have hmem : ks.foldl
        (fun best k2 => if l.count best < l.count k2 then k2 else best) k
        ∈ counterKeys l := by
      rw [hk]
      exact foldl_argmax_mem l ks k
    exact (counterKeys_mem l _).mp hmem

theorem streak_pos (active : List Int) (hne : active ≠ []) :
    1 ≤ streak active := by
  unfold streak
  cases h : active.reverse with
  | nil => exact absurd (List.reverse_eq_nil_iff.mp h) hne
  | cons last rest => exact Nat.le_add_right 1 _

theorem active_days_sorted (days : List Int) :
    (active_days days).Sorted (· < ·) := by
  have h1 : (active_days days).Sorted (· ≤ ·) :=
    List.sorted_insertionSort _ _
  have h2 : (active_days days).Nodup :=
    (List.perm_insertionSort _ _).nodup_iff.mpr (counterKeys_nodup days)
  exact h1.lt_of_le h2

theorem active_days_ne_nil (days : List Int) (hne : days ≠ []) :
    active_days days ≠ [] := by
  intro h
  have hperm : List.Perm (active_days days) (counterKeys days) :=
    List.perm_insertionSort _ _
  rw [h] at hperm
  exact hne ((counterKeys_eq_nil_iff days).mp hperm.symm.eq_nil)

/-- C9: the insights of `build_activity` have `streak_days = 0` and
`busiest_local_day = None` exactly when the filtered window is empty;
a non-empty window yields `streak_days ≥ 1` and a busiest local day
that is a local date of at least one window event. -/
theorem insights_empty_iff (localDay : Int → Int) (we : List RawEvent) :
    (((mkActivityInsights localDay we).streak_days = 0 ∧
      (mkActivityInsights localDay we).busiest_local_day = none) ↔
        we = []) ∧
    (we ≠ [] →
      1 ≤ (mkActivityInsights localDay we).streak_days ∧
      ∃ d, (mkActivityInsights localDay we).busiest_local_day = some d ∧
        d ∈ events_by_local_day localDay we) := by
  have hdays : events_by_local_day localDay we = [] ↔ we = [] := by
    unfold events_by_local_day
    simp
  constructor
  · constructor
    · rintro ⟨_, hb⟩
      exact hdays.mp ((most_common1_eq_none_iff _).mp hb)
    · rintro rfl
      exact ⟨rfl, rfl⟩
  · intro hne
    have hdne : events_by_local_day localDay we ≠ [] := fun h =>
      hne (hdays.mp h)
    exact ⟨streak_pos _ (active_days_ne_nil _ hdne),
      most_common1_mem _ hdne⟩

/-- Witness for `insights_empty_iff` at a one-event window. -/
theorem insights_empty_iff_witness :
    1 ≤ (mkActivityInsights (fun t => t) [futureEvent]).streak_days ∧
    ∃ d, (mkActivityInsights (fun t => t) [futureEvent]).busiest_local_day
        = some d ∧
      d ∈ events_by_local_day (fun t => t) [futureEvent] :=
  (insights_empty_iff (fun t => t) [futureEvent]).2 (by decide)

/-! ### Theorems for C1 -/

theorem takeWhile_range_succ (n : Nat) (q : Nat → Bool) (hq : q 0 = true) :
    ((List.range (n + 1)).takeWhile q).length
      = 1 + ((List.range n).takeWhile (q ∘ Nat.succ)).length := by
  rw [List.range_succ_eq_map, List.takeWhile_cons, hq]
  simp [List.takeWhile_map]
  omega

theorem takeWhile_range_stop (n : Nat) (q : Nat → Bool) (hq0 : q 0 = true)
    (hq1 : q 1 = false) :
    ((List.range (n + 1 + 1)).takeWhile q).length = 1 := by
  rw [takeWhile_range_succ (n + 1) q hq0]
  rw [List.range_succ_eq_map, List.takeWhile_cons]
  have h0 : (q ∘ Nat.succ) 0 = false := hq1
  rw [h0]
  simp

/-- The backward walk from the most recent active day `m` over the
earlier active days (strictly descending) counts exactly the initial
indices `i` for which `m - i` is still an active day. -/
theorem streakGo_spec (rest : List Int) : ∀ m : Int,
    (m :: rest).Pairwise (· > ·) →
    1 + streakGo m rest =
      ((List.range (rest.length + 1)).takeWhile
        (fun i : Nat => decide ((m - (i : Int)) ∈ m :: rest))).length := by
  induction rest with
  | nil =>
    intro m _
    have hr : List.range 1 = [0] := rfl
    simp [streakGo, hr, List.takeWhile_cons]
  | cons p rs ih =>
    intro m hp
    obtain ⟨hgt, hprs⟩ := List.pairwise_cons.mp hp
    have hmp : p < m := hgt p (List.mem_cons_self p rs)
    have hq0 : (fun i : Nat => decide ((m - (i : Int)) ∈ m :: p :: rs)) 0
        = true := by
      simp
    by_cases hc : m - p = 1
    · have hstep : streakGo m (p :: rs) = 1 + streakGo p rs := by
        simp [streakGo, hc]
      have hfun : ((fun i : Nat => decide ((m - (i : Int)) ∈ m :: p :: rs))
            ∘ Nat.succ)
          = (fun i : Nat => decide ((p - (i : Int)) ∈ p :: rs)) := by
        funext i
        simp only [Function.comp_apply]
        rw [decide_eq_decide]
        have harith : m - ((Nat.succ i : Nat) : Int) = p - (i : Int) := by
          push_cast
          omega
        rw [harith]
        constructor
        · intro hmem
          rcases List.mem_cons.mp hmem with heq | hmem2
          · exfalso
            have hnn : (0 : Int) ≤ (i : Int) := Int.natCast_nonneg i
            omega
          · exact hmem2
        · intro hmem
          exact List.mem_cons_of_mem m hmem
      rw [hstep]
      simp only [List.length_cons]
      rw [takeWhile_range_succ (rs.length + 1) _ hq0, hfun]
      rw [← ih p hprs]
    · have hstep : streakGo m (p :: rs) = 0 := by
        simp [streakGo, hc]
      have hq1 : (fun i : Nat => decide ((m - (i : Int)) ∈ m :: p :: rs)) 1
          = false := by
        have hrs : ∀ x ∈ rs, x < p :=
          fun x hx => (List.pairwise_cons.mp hprs).1 x hx
        simp only [Nat.cast_one, decide_eq_false_iff_not, List.mem_cons,
          not_or]
        refine ⟨by omega, by omega, ?_⟩
        intro hmem
        have hx := hrs _ hmem
        omega
      rw [hstep]
      simp only [List.length_cons]
      rw [takeWhile_range_stop rs.length _ hq0 hq1]

/-- For a non-empty strictly ascending list of active days, the streak
loop computes exactly the specification's trailing-run length. -/
theorem streak_eq_spec (active : List Int) (hne : active ≠ [])
    (hs : active.Sorted (· < ·)) :
    streak active = spec_trailing_streak active := by
  cases h : active.reverse with
  | nil => exact absurd (List.reverse_eq_nil_iff.mp h) hne
  | cons last rest =>
    have hstreak : streak active = 1 + streakGo last rest := by
      unfold streak
      rw [h]
    have hlast : active.getLast? = some last := by
      rw [List.getLast?_eq_head?_reverse, h]
      rfl
    have hlen : active.length = rest.length + 1 := by
      rw [← List.length_reverse, h]
      rfl
    have hpw : (last :: rest).Pairwise (· > ·) := by
      rw [← h]
      exact List.pairwise_reverse.mpr hs
    have hfun : (fun i : Nat => decide ((last - (i : Int)) ∈ active))
        = (fun i : Nat => decide ((last - (i : Int)) ∈ last :: rest)) := by
      funext i
      rw [decide_eq_decide, ← h, List.mem_reverse]
    have hspec : spec_trailing_streak active
        = ((List.range active.length).takeWhile
            (fun i : Nat => decide ((last - (i : Int)) ∈ active))).length := by
      unfold spec_trailing_streak
      rw [hlast]
    rw [hstreak, hspec, hlen, hfun]
    exact streakGo_spec rest last hpw

/-- C1: for every non-empty multiset of local active dates derived from
the window events, the streak `build_activity` computes equals the
specification's trailing run: the number of strictly consecutive
calendar dates ending at the most recent active date, walking backward
until the first gap. -/
theorem streak_days_spec (localDay : Int → Int) (we : List RawEvent)
    (hne : we ≠ []) :
    (mkActivityInsights localDay we).streak_days =
      spec_trailing_streak (active_days (events_by_local_day localDay we)) := by
  have hdne : events_by_local_day localDay we ≠ [] := by
    unfold events_by_local_day
    simpa using hne
  exact streak_eq_spec _ (active_days_ne_nil _ hdne) (active_days_sorted _)

/-- Four events on local days 1, 2, 3 and 5: the streak anchors at day 5
and equals 1, since day 4 is inactive. -/
def c1Events : List RawEvent :=
  [{ id := ("1"), type := ("PushEvent"), repo_name := ("u/r"), created_at := 1 },
   { id := ("2"), type := ("PushEvent"), repo_name := ("u/r"), created_at := 2 },
   { id := ("3"), type := ("PushEvent"), repo_name := ("u/r"), created_at := 3 },
   { id := ("5"), type := ("PushEvent"), repo_name := ("u/r"), created_at := 5 }]

/-- Witness for `streak_days_spec`: on active days `{1, 2, 3, 5}` the
streak and its specification agree and both equal 1. -/
theorem streak_days_spec_witness :
    (mkActivityInsights (fun t => t) c1Events).streak_days =
      spec_trailing_streak
        (active_days (events_by_local_day (fun t => t) c1Events)) ∧
    (mkActivityInsights (fun t => t) c1Events).streak_days = 1 :=
  ⟨streak_days_spec (fun t => t) c1Events (by decide), by decide⟩
